import Mathlib

/-!
Shallow embedding of the `corral` rectangle packer's core module
(`src/tree2d.rs`): the guillotine packing tree `Tree2d`, its bounding
boxes, insertion and flattening, together with the invariants and
geometric facts needed to settle the specification's claims.

Machine integers (`u32`) are modelled as `Nat`; the places where the
Rust code performs `u32` subtraction are additionally modelled by a
checked variant (`checkedSub`, returning `none` on underflow) to settle
the no-panic claim.
-/

namespace Corral

/-- Mirrors `struct BoundingBox { x, y, width, height : u32 }` from
`tree2d.rs`. Fields in declaration order: `x`, `y`, `width`, `height`. -/
structure BoundingBox where
  x : Nat
  y : Nat
  width : Nat
  height : Nat
deriving DecidableEq

/-- Mirrors `BoundingBox::can_contain`: `width <= self.width && height <= self.height`. -/
def BoundingBox.can_contain (bb : BoundingBox) (width height : Nat) : Bool :=
  decide (width ≤ bb.width) && decide (height ≤ bb.height)

/-- Mirrors `enum Tree2d<T>`: a `Leaf` is a free region, a `Node` is a used
region holding a payload and its `right` and `down` children. -/
inductive Tree2d (T : Type) where
  | Leaf (bb : BoundingBox)
  | Node (bb : BoundingBox) (right : Tree2d T) (down : Tree2d T) (data : T)
deriving DecidableEq

namespace Tree2d

variable {T : Type}

/-- Mirrors `Tree2d::new(width, height)`: a single free leaf at the origin. -/
def new (width height : Nat) : Tree2d T :=
  .Leaf ⟨0, 0, width, height⟩

/-- Mirrors `Tree2d::partition`: split a free region `bb` around a
`width × height` item placed at its top-left corner, producing a used
node with two fresh free leaves. -/
def partition (data : T) (bb : BoundingBox) (width height : Nat) : Tree2d T :=
  let width_remainder := bb.width - width
  let height_remainder := bb.height - height
  let bbs :=
    if height_remainder > width_remainder then
      (⟨bb.x + width, bb.y, width_remainder, height⟩,
       ⟨bb.x, bb.y + height, bb.width, height_remainder⟩)
    else
      (⟨bb.x + width, bb.y, width_remainder, bb.height⟩,
       (⟨bb.x, bb.y + height, width, height_remainder⟩ : BoundingBox))
  .Node bb (.Leaf bbs.1) (.Leaf bbs.2) data

/-- True exactly on `Node` (used) trees, false on `Leaf` (free) trees. -/
def isUsed : Tree2d T → Bool
  | .Leaf _ => false
  | .Node _ _ _ _ => true

/-- Mirrors `Tree2d::insert_aux`. The source matches on the pair of
children `(right, down)`; in its `(Node, Leaf)` arm it tries `down`
first and `right` second, while in the other three arms — `(Leaf, Leaf)`,
`(Leaf, Node)`, `(Node, Node)` — it tries `right` first and `down`
second, so the four arms are rendered here by the boolean test
`right.isUsed && !down.isUsed`. The source binds each recursive result
once; here the calls are repeated verbatim, which is equal since the
function is pure. -/
def insert_aux : Tree2d T → Nat → Nat → T → Tree2d T × Bool
  | .Leaf bb, width, height, data =>
      if bb.can_contain width height then (partition data bb width height, true)
      else (.Leaf bb, false)
  | .Node bb right down data, width, height, d =>
      if bb.can_contain width height then
        if right.isUsed && !(down.isUsed) then
          if (insert_aux down width height d).2 then
            (.Node bb right (insert_aux down width height d).1 data, true)
          else
            (.Node bb (insert_aux right width height d).1
              (insert_aux down width height d).1 data,
             (insert_aux right width height d).2)
        else
          if (insert_aux right width height d).2 then
            (.Node bb (insert_aux right width height d).1 down data, true)
          else
            (.Node bb (insert_aux right width height d).1
              (insert_aux down width height d).1 data,
             (insert_aux down width height d).2)
      else (.Node bb right down data, false)

/-- Mirrors `Tree2d::insert` (the `Rc::new` wrapping is the identity here). -/
def insert (t : Tree2d T) (width height : Nat) (data : T) : Tree2d T × Bool :=
  insert_aux t width height data

/-- Mirrors `Tree2d::flatten_aux`: pushes the node's `(payload, bb)` pair,
then walks the `right` subtree, then the `down` subtree, threading the
output vector as an accumulator list. -/
def flatten_aux : Tree2d T → List (T × BoundingBox) → List (T × BoundingBox)
  | .Leaf _, output => output
  | .Node bb right down data, output =>
      flatten_aux down (flatten_aux right (output ++ [(data, bb)]))

/-- Mirrors `Tree2d::flatten`: run `flatten_aux` on an empty output vector. -/
def flatten (t : Tree2d T) : List (T × BoundingBox) :=
  flatten_aux t []

/-- Root bounding box of a tree (the `bb` field of either variant). -/
def rootBB : Tree2d T → BoundingBox
  | .Leaf bb => bb
  | .Node bb _ _ _ => bb

/-- Number of used (`Node`) nodes in the tree. -/
def usedCount : Tree2d T → Nat
  | .Leaf _ => 0
  | .Node _ right down _ => usedCount right + usedCount down + 1

/-- Drive a sequence of `insert` calls, as the packing orchestrator does;
the returned flag is true exactly when every single insert returned true. -/
def packList : Tree2d T → List (Nat × Nat × T) → Tree2d T × Bool
  | t, [] => (t, true)
  | t, (width, height, data) :: rest =>
      let p := insert_aux t width height data
      let q := packList p.1 rest
      (q.1, p.2 && q.2)

end Tree2d

/-- Modelled from the spec: the placement list described in §4.2, "every
Used node's `(payload, bb)` pair in a deterministic preorder traversal
(node itself, then its `right` subtree, then its `down` subtree)",
written directly as list construction, without the source's output
accumulator. Used to settle the refinement claim about `flatten`. -/
def preorderPlacements {T : Type} : Tree2d T → List (T × BoundingBox)
  | .Leaf _ => []
  | .Node bb right down data =>
      (data, bb) :: (preorderPlacements right ++ preorderPlacements down)

/-- The point set of a bounding box: the half-open grid rectangle
`[x, x + width) × [y, y + height)`. -/
def memBB (bb : BoundingBox) (q : Nat × Nat) : Prop :=
  bb.x ≤ q.1 ∧ q.1 < bb.x + bb.width ∧ bb.y ≤ q.2 ∧ q.2 < bb.y + bb.height

instance (bb : BoundingBox) (q : Nat × Nat) : Decidable (memBB bb q) := by
  unfold memBB
  exact inferInstance

/-- Two bounding boxes are disjoint when no grid point lies in both. -/
def disjointBB (a b : BoundingBox) : Prop :=
  ∀ q : Nat × Nat, memBB a q → memBB b q → False

/-- The `width × height` footprint of an item placed at the top-left
corner of region `bb`. -/
def footprint (bb : BoundingBox) (width height : Nat) : BoundingBox :=
  ⟨bb.x, bb.y, width, height⟩

/-- The `right` child region produced by `Tree2d.partition` on region `bb`
for a `width × height` item (the first component of the source's
`(bb_right, bb_down)` pair). -/
def splitRight (bb : BoundingBox) (width height : Nat) : BoundingBox :=
  if bb.height - height > bb.width - width then
    ⟨bb.x + width, bb.y, bb.width - width, height⟩
  else
    ⟨bb.x + width, bb.y, bb.width - width, bb.height⟩

/-- The `down` child region produced by `Tree2d.partition` on region `bb`
for a `width × height` item (the second component of the source's
`(bb_right, bb_down)` pair). -/
def splitDown (bb : BoundingBox) (width height : Nat) : BoundingBox :=
  if bb.height - height > bb.width - width then
    ⟨bb.x, bb.y + height, bb.width, bb.height - height⟩
  else
    ⟨bb.x, bb.y + height, width, bb.height - height⟩

namespace Tree2d

variable {T : Type}

/-- Instrumented-tree invariant, over payloads that record the inserted
item's size: every used node's payload `(w, h)` fits in its `bb`, and its
children's root regions are exactly the two regions `partition` carved
out of `bb` for a `w × h` item. Holds for every tree built by `new`
followed by inserts whose payload equals the item's size. -/
def sized : Tree2d (Nat × Nat) → Bool
  | .Leaf _ => true
  | .Node bb right down wh =>
      decide (wh.1 ≤ bb.width) && decide (wh.2 ≤ bb.height) &&
      decide (right.rootBB = splitRight bb wh.1 wh.2) &&
      decide (down.rootBB = splitDown bb wh.1 wh.2) &&
      sized right && sized down

/-- Structural invariant of all trees the module can build: each child's
root region is no wider and no taller than its parent's `bb`. -/
def shrinking : Tree2d T → Bool
  | .Leaf _ => true
  | .Node bb right down _ =>
      decide (right.rootBB.width ≤ bb.width) &&
      decide (right.rootBB.height ≤ bb.height) &&
      decide (down.rootBB.width ≤ bb.width) &&
      decide (down.rootBB.height ≤ bb.height) &&
      shrinking right && shrinking down

/-- Whether some free leaf of the tree can contain a `width × height` item. -/
def hasFreeFit : Tree2d T → Nat → Nat → Bool
  | .Leaf bb, width, height => bb.can_contain width height
  | .Node _ right down _, width, height =>
      hasFreeFit right width height || hasFreeFit down width height

/-- Insert a list of items whose payloads record their own sizes,
starting from a fresh `width × height` canvas. -/
def packSized (width height : Nat) (items : List (Nat × Nat)) :
    Tree2d (Nat × Nat) × Bool :=
  packList (new width height) (items.map fun s => (s.1, s.2, s))

end Tree2d

/-- Modelled from the spec: the insertion-order policy claimed in §4.2 —
at a used node that can contain the item, "if exactly one child is
already a Used node, try that child first; if both children are Free or
both are Used, try `right` before `down`". Identical to
`Tree2d.insert_aux` except for the order test. -/
def insertUsedFirst {T : Type} : Tree2d T → Nat → Nat → T → Tree2d T × Bool
  | .Leaf bb, width, height, data =>
      if bb.can_contain width height then (Tree2d.partition data bb width height, true)
      else (.Leaf bb, false)
  | .Node bb right down data, width, height, d =>
      if bb.can_contain width height then
        if right.isUsed != down.isUsed then
          -- exactly one child is used: try the used child first
          if right.isUsed then
            if (insertUsedFirst right width height d).2 then
              (.Node bb (insertUsedFirst right width height d).1 down data, true)
            else
              (.Node bb (insertUsedFirst right width height d).1
                (insertUsedFirst down width height d).1 data,
               (insertUsedFirst down width height d).2)
          else
            if (insertUsedFirst down width height d).2 then
              (.Node bb right (insertUsedFirst down width height d).1 data, true)
            else
              (.Node bb (insertUsedFirst right width height d).1
                (insertUsedFirst down width height d).1 data,
               (insertUsedFirst right width height d).2)
        else
          -- both free or both used: try right before down
          if (insertUsedFirst right width height d).2 then
            (.Node bb (insertUsedFirst right width height d).1 down data, true)
          else
            (.Node bb (insertUsedFirst right width height d).1
              (insertUsedFirst down width height d).1 data,
             (insertUsedFirst down width height d).2)
      else (.Node bb right down data, false)

/-- The policy `Tree2d.insert_aux` actually implements, phrased the way
the amended claim reads: at a used node that can contain the item, if
exactly one child is used, try the FREE child first and the used child
second; if both children are free or both are used, try `right` before
`down`. -/
def insertFreeFirst {T : Type} : Tree2d T → Nat → Nat → T → Tree2d T × Bool
  | .Leaf bb, width, height, data =>
      if bb.can_contain width height then (Tree2d.partition data bb width height, true)
      else (.Leaf bb, false)
  | .Node bb right down data, width, height, d =>
      if bb.can_contain width height then
        if right.isUsed != down.isUsed then
          -- exactly one child is used: try the free child first
          if right.isUsed then
            if (insertFreeFirst down width height d).2 then
              (.Node bb right (insertFreeFirst down width height d).1 data, true)
            else
              (.Node bb (insertFreeFirst right width height d).1
                (insertFreeFirst down width height d).1 data,
               (insertFreeFirst right width height d).2)
          else
            if (insertFreeFirst right width height d).2 then
              (.Node bb (insertFreeFirst right width height d).1 down data, true)
            else
              (.Node bb (insertFreeFirst right width height d).1
                (insertFreeFirst down width height d).1 data,
               (insertFreeFirst down width height d).2)
        else
          -- both free or both used: try right before down
          if (insertFreeFirst right width height d).2 then
            (.Node bb (insertFreeFirst right width height d).1 down data, true)
          else
            (.Node bb (insertFreeFirst right width height d).1
              (insertFreeFirst down width height d).1 data,
             (insertFreeFirst down width height d).2)
      else (.Node bb right down data, false)

/-- Checked `u32` subtraction: `none` models the debug-mode panic of
`a - b` when `b > a`. -/
def checkedSub (a b : Nat) : Option Nat :=
  if b ≤ a then some (a - b) else none

/-- `Tree2d.partition` with both `u32` subtractions checked: `none` models
a panic from underflow of `bb.width - width` or `bb.height - height`. -/
def partitionChecked {T : Type} (data : T) (bb : BoundingBox)
    (width height : Nat) : Option (Tree2d T) :=
  match checkedSub bb.width width, checkedSub bb.height height with
  | some width_remainder, some height_remainder =>
      some (.Node bb
        (.Leaf (if height_remainder > width_remainder then
                  ⟨bb.x + width, bb.y, width_remainder, height⟩
                else ⟨bb.x + width, bb.y, width_remainder, bb.height⟩))
        (.Leaf (if height_remainder > width_remainder then
                  ⟨bb.x, bb.y + height, bb.width, height_remainder⟩
                else ⟨bb.x, bb.y + height, width, height_remainder⟩))
        data)
  | _, _ => none

/-- `Tree2d.insert_aux` with the subtractions inside `partition` checked;
`none` models a panic reaching the caller. -/
def insertChecked {T : Type} : Tree2d T → Nat → Nat → T → Option (Tree2d T × Bool)
  | .Leaf bb, width, height, data =>
      if bb.can_contain width height then
        (partitionChecked data bb width height).map fun t => (t, true)
      else some (.Leaf bb, false)
  | .Node bb right down data, width, height, d =>
      if bb.can_contain width height then
        if right.isUsed && !(down.isUsed) then
          match insertChecked down width height d with
          | none => none
          | some q =>
              if q.2 then some (.Node bb right q.1 data, true)
              else
                match insertChecked right width height d with
                | none => none
                | some p => some (.Node bb p.1 q.1 data, p.2)
        else
          match insertChecked right width height d with
          | none => none
          | some p =>
              if p.2 then some (.Node bb p.1 down data, true)
              else
                match insertChecked down width height d with
                | none => none
                | some q => some (.Node bb p.1 q.1 data, q.2)
      else some (.Node bb right down data, false)

/-- The footprint of one placement of an instrumented tree: the payload
records the item's `(w, h)`, placed at the top-left corner of the
placement's rectangle. -/
def footOf (e : (Nat × Nat) × BoundingBox) : BoundingBox :=
  ⟨e.2.x, e.2.y, e.1.1, e.1.2⟩

/-- A used node with region `bb`, item size `(w, h)` and child regions
`rbb`, `dbb` partitions its region exactly: footprint and the two child
regions are pairwise disjoint and together cover `bb` with no gaps. -/
def nodeOk (bb rbb dbb : BoundingBox) (w h : Nat) : Prop :=
  (∀ q : Nat × Nat,
      memBB bb q ↔ (memBB (footprint bb w h) q ∨ memBB rbb q ∨ memBB dbb q)) ∧
  disjointBB (footprint bb w h) rbb ∧
  disjointBB (footprint bb w h) dbb ∧
  disjointBB rbb dbb

/-- Every used node of an instrumented tree satisfies `nodeOk` for its
own region, its payload's recorded item size and its children's regions. -/
def allUsedOk : Tree2d (Nat × Nat) → Prop
  | .Leaf _ => True
  | .Node bb right down wh =>
      nodeOk bb right.rootBB down.rootBB wh.1 wh.2 ∧ allUsedOk right ∧ allUsedOk down


/-- The multiset of payloads appearing in the tree's flattened placements. -/
def payloads {T : Type} (t : Tree2d T) : Multiset T :=
  ((Tree2d.flatten t).map Prod.fst : List T)
end Corral

namespace Corral

theorem partition_eq {T : Type} (d : T) (bb : BoundingBox) (w h : Nat) :
    Tree2d.partition d bb w h =
      .Node bb (.Leaf (splitRight bb w h)) (.Leaf (splitDown bb w h)) d := by
  simp only [Tree2d.partition, splitRight, splitDown]
  split <;> rfl

theorem flatten_aux_eq {T : Type} (t : Tree2d T) :
    ∀ out, Tree2d.flatten_aux t out = out ++ preorderPlacements t := by
  induction t with
  | Leaf bb => intro out; simp [Tree2d.flatten_aux, preorderPlacements]
  | Node bb right down data ihr ihd =>
      intro out
      simp [Tree2d.flatten_aux, preorderPlacements, ihr, ihd]

theorem flatten_eq {T : Type} (t : Tree2d T) :
    Tree2d.flatten t = preorderPlacements t := by
  simp [Tree2d.flatten, flatten_aux_eq]

theorem rootBB_insert {T : Type} (t : Tree2d T) (w h : Nat) (d : T) :
    ((Tree2d.insert_aux t w h d).1).rootBB = t.rootBB := by
  cases t with
  | Leaf bb =>
      by_cases hc : bb.can_contain w h = true
      · simp [Tree2d.insert_aux, hc, partition_eq, Tree2d.rootBB]
      · simp only [Bool.not_eq_true] at hc
        simp [Tree2d.insert_aux, hc, Tree2d.rootBB]
  | Node bb right down data =>
      simp only [Tree2d.insert_aux]
      split_ifs <;> rfl

theorem insert_fail_eq {T : Type} (t : Tree2d T) :
    ∀ (w h : Nat) (d : T),
      (Tree2d.insert_aux t w h d).2 = false → (Tree2d.insert_aux t w h d).1 = t := by
  induction t with
  | Leaf bb =>
      intro w h d hf
      by_cases hc : bb.can_contain w h = true
      · simp [Tree2d.insert_aux, hc] at hf
      · simp only [Bool.not_eq_true] at hc
        simp [Tree2d.insert_aux, hc]
  | Node bb right down data ihr ihd =>
      intro w h d hf
      by_cases hc : bb.can_contain w h = true
      · by_cases hord : (right.isUsed && !down.isUsed) = true
        · by_cases hq : (Tree2d.insert_aux down w h d).2 = true
          · simp [Tree2d.insert_aux, hc, hord, hq] at hf
          · simp only [Bool.not_eq_true] at hq
            simp [Tree2d.insert_aux, hc, hord, hq] at hf ⊢
            exact ⟨ihr _ _ _ hf, ihd _ _ _ hq⟩
        · by_cases hp : (Tree2d.insert_aux right w h d).2 = true
          · simp [Tree2d.insert_aux, hc, hord, hp] at hf
          · simp only [Bool.not_eq_true] at hp
            simp [Tree2d.insert_aux, hc, hord, hp] at hf ⊢
            exact ⟨ihr _ _ _ hp, ihd _ _ _ hf⟩
      · simp only [Bool.not_eq_true] at hc
        simp [Tree2d.insert_aux, hc]

end Corral

namespace Corral

theorem mem_footprint_le (bb : BoundingBox) (w h : Nat)
    (hw : w ≤ bb.width) (hh : h ≤ bb.height) (q : Nat × Nat)
    (hq : memBB (footprint bb w h) q) : memBB bb q := by
  simp only [memBB, footprint] at hq ⊢
  omega

theorem mem_splitRight_le (bb : BoundingBox) (w h : Nat)
    (hw : w ≤ bb.width) (hh : h ≤ bb.height) (q : Nat × Nat)
    (hq : memBB (splitRight bb w h) q) : memBB bb q := by
  simp only [memBB, splitRight] at hq ⊢
  by_cases hcond : bb.height - h > bb.width - w <;>
    simp only [if_pos, if_neg, hcond, if_true, if_false] at hq <;> omega

theorem mem_splitDown_le (bb : BoundingBox) (w h : Nat)
    (hw : w ≤ bb.width) (hh : h ≤ bb.height) (q : Nat × Nat)
    (hq : memBB (splitDown bb w h) q) : memBB bb q := by
  simp only [memBB, splitDown] at hq ⊢
  by_cases hcond : bb.height - h > bb.width - w <;>
    simp only [if_pos, if_neg, hcond, if_true, if_false] at hq <;> omega

theorem disj_foot_right (bb : BoundingBox) (w h : Nat) :
    disjointBB (footprint bb w h) (splitRight bb w h) := by
  intro q h1 h2
  simp only [memBB, footprint, splitRight] at h1 h2
  by_cases hcond : bb.height - h > bb.width - w <;>
    simp only [if_pos, if_neg, hcond, if_true, if_false] at h2 <;> omega

theorem disj_foot_down (bb : BoundingBox) (w h : Nat) :
    disjointBB (footprint bb w h) (splitDown bb w h) := by
  intro q h1 h2
  simp only [memBB, footprint, splitDown] at h1 h2
  by_cases hcond : bb.height - h > bb.width - w <;>
    simp only [if_pos, if_neg, hcond, if_true, if_false] at h2 <;> omega

theorem disj_right_down (bb : BoundingBox) (w h : Nat) :
    disjointBB (splitRight bb w h) (splitDown bb w h) := by
  intro q h1 h2
  simp only [memBB, splitRight, splitDown] at h1 h2
  by_cases hcond : bb.height - h > bb.width - w <;>
    simp only [if_pos, if_neg, hcond, if_true, if_false] at h1 h2 <;> omega

theorem cover_split (bb : BoundingBox) (w h : Nat)
    (hw : w ≤ bb.width) (hh : h ≤ bb.height) (q : Nat × Nat) :
    memBB bb q ↔
      (memBB (footprint bb w h) q ∨ memBB (splitRight bb w h) q ∨
        memBB (splitDown bb w h) q) := by
  simp only [memBB, footprint, splitRight, splitDown]
  by_cases hcond : bb.height - h > bb.width - w <;>
    simp only [if_pos, if_neg, hcond, if_true, if_false] <;> omega

end Corral

namespace Corral

theorem hasFreeFit_can_contain {T : Type} (t : Tree2d T) (w h : Nat) :
    t.shrinking = true → t.hasFreeFit w h = true →
      t.rootBB.can_contain w h = true := by
  induction t with
  | Leaf bb =>
      intro _ hf
      simpa [Tree2d.hasFreeFit, Tree2d.rootBB] using hf
  | Node bb right down data ihr ihd =>
      intro hs hf
      simp only [Tree2d.shrinking, Bool.and_eq_true, decide_eq_true_eq] at hs
      obtain ⟨⟨⟨⟨⟨hrw, hrh⟩, hdw⟩, hdh⟩, hsr⟩, hsd⟩ := hs
      simp only [Tree2d.hasFreeFit, Bool.or_eq_true] at hf
      simp only [Tree2d.rootBB, BoundingBox.can_contain, Bool.and_eq_true,
        decide_eq_true_eq]
      rcases hf with hf | hf
      · have h1 := ihr hsr hf
        simp only [BoundingBox.can_contain, Bool.and_eq_true, decide_eq_true_eq] at h1
        exact ⟨le_trans h1.1 hrw, le_trans h1.2 hrh⟩
      · have h1 := ihd hsd hf
        simp only [BoundingBox.can_contain, Bool.and_eq_true, decide_eq_true_eq] at h1
        exact ⟨le_trans h1.1 hdw, le_trans h1.2 hdh⟩

theorem insert_flag_eq {T : Type} (t : Tree2d T) :
    ∀ (w h : Nat) (d : T), t.shrinking = true →
      (Tree2d.insert_aux t w h d).2 = t.hasFreeFit w h := by
  induction t with
  | Leaf bb =>
      intro w h d _
      by_cases hc : bb.can_contain w h = true
      · simp [Tree2d.insert_aux, Tree2d.hasFreeFit, hc]
      · simp only [Bool.not_eq_true] at hc
        simp [Tree2d.insert_aux, Tree2d.hasFreeFit, hc]
  | Node bb right down data ihr ihd =>
      intro w h d hs
      have hs' := hs
      simp only [Tree2d.shrinking, Bool.and_eq_true, decide_eq_true_eq] at hs'
      obtain ⟨⟨⟨⟨⟨hrw, hrh⟩, hdw⟩, hdh⟩, hsr⟩, hsd⟩ := hs'
      by_cases hc : bb.can_contain w h = true
      · have er : (Tree2d.insert_aux right w h d).2 = right.hasFreeFit w h :=
          ihr w h d hsr
        have ed : (Tree2d.insert_aux down w h d).2 = down.hasFreeFit w h :=
          ihd w h d hsd
        by_cases hord : (right.isUsed && !down.isUsed) = true
        · by_cases hq : (Tree2d.insert_aux down w h d).2 = true
          · have hfd : down.hasFreeFit w h = true := by rw [← ed]; exact hq
            simp [Tree2d.insert_aux, Tree2d.hasFreeFit, hc, hord, hq, hfd]
          · simp only [Bool.not_eq_true] at hq
            have hfd : down.hasFreeFit w h = false := by rw [← ed]; exact hq
            simp [Tree2d.insert_aux, Tree2d.hasFreeFit, hc, hord, hq, hfd, er]
        · by_cases hp : (Tree2d.insert_aux right w h d).2 = true
          · have hfr : right.hasFreeFit w h = true := by rw [← er]; exact hp
            simp [Tree2d.insert_aux, Tree2d.hasFreeFit, hc, hord, hp, hfr]
          · simp only [Bool.not_eq_true] at hp
            have hfr : right.hasFreeFit w h = false := by rw [← er]; exact hp
            simp [Tree2d.insert_aux, Tree2d.hasFreeFit, hc, hord, hp, hfr, ed]
      · simp only [Bool.not_eq_true] at hc
        cases hft : Tree2d.hasFreeFit (.Node bb right down data) w h with
        | false => simp [Tree2d.insert_aux, hc]
        | true =>
            have h1 := hasFreeFit_can_contain (.Node bb right down data) w h hs hft
            simp only [Tree2d.rootBB] at h1
            rw [hc] at h1
            exact absurd h1 (by simp)

theorem usedCount_insert {T : Type} (t : Tree2d T) :
    ∀ (w h : Nat) (d : T), (Tree2d.insert_aux t w h d).2 = true →
      (Tree2d.insert_aux t w h d).1.usedCount = t.usedCount + 1 := by
  induction t with
  | Leaf bb =>
      intro w h d hsucc
      by_cases hc : bb.can_contain w h = true
      · simp [Tree2d.insert_aux, hc, partition_eq, Tree2d.usedCount]
      · simp only [Bool.not_eq_true] at hc
        simp [Tree2d.insert_aux, hc] at hsucc
  | Node bb right down data ihr ihd =>
      intro w h d hsucc
      by_cases hc : bb.can_contain w h = true
      · by_cases hord : (right.isUsed && !down.isUsed) = true
        · by_cases hq : (Tree2d.insert_aux down w h d).2 = true
          · have := ihd w h d hq
            simp [Tree2d.insert_aux, hc, hord, hq, Tree2d.usedCount, this]
            omega
          · simp only [Bool.not_eq_true] at hq
            simp only [Tree2d.insert_aux, hc, hord, hq, if_true, Bool.false_eq_true,
              if_false] at hsucc ⊢
            have h1 := ihr w h d hsucc
            have h2 := insert_fail_eq down w h d hq
            simp [Tree2d.usedCount, h1, h2]
            omega
        · by_cases hp : (Tree2d.insert_aux right w h d).2 = true
          · have := ihr w h d hp
            simp [Tree2d.insert_aux, hc, hord, hp, Tree2d.usedCount, this]
            omega
          · simp only [Bool.not_eq_true] at hp
            simp only [Tree2d.insert_aux, hc, hord, hp, Bool.false_eq_true,
              if_false] at hsucc ⊢
            have h1 := ihd w h d hsucc
            have h2 := insert_fail_eq right w h d hp
            simp [Tree2d.usedCount, h1, h2]
            omega
      · simp only [Bool.not_eq_true] at hc
        simp [Tree2d.insert_aux, hc] at hsucc

end Corral

namespace Corral

theorem splitRight_width_le (bb : BoundingBox) (w h : Nat) :
    (splitRight bb w h).width ≤ bb.width := by
  by_cases hcond : bb.height - h > bb.width - w <;>
    simp only [splitRight, hcond, if_true, if_false] <;> omega

theorem splitRight_height_le (bb : BoundingBox) (w h : Nat) (hh : h ≤ bb.height) :
    (splitRight bb w h).height ≤ bb.height := by
  by_cases hcond : bb.height - h > bb.width - w <;>
    simp only [splitRight, hcond, if_true, if_false] <;> omega

theorem splitDown_width_le (bb : BoundingBox) (w h : Nat) (hw : w ≤ bb.width) :
    (splitDown bb w h).width ≤ bb.width := by
  by_cases hcond : bb.height - h > bb.width - w <;>
    simp only [splitDown, hcond, if_true, if_false] <;> omega

theorem splitDown_height_le (bb : BoundingBox) (w h : Nat) :
    (splitDown bb w h).height ≤ bb.height := by
  by_cases hcond : bb.height - h > bb.width - w <;>
    simp only [splitDown, hcond, if_true, if_false] <;> omega

theorem shrinking_node_of {T : Type} (bb : BoundingBox) (r d : Tree2d T) (data : T)
    (h1 : r.rootBB.width ≤ bb.width) (h2 : r.rootBB.height ≤ bb.height)
    (h3 : d.rootBB.width ≤ bb.width) (h4 : d.rootBB.height ≤ bb.height)
    (h5 : r.shrinking = true) (h6 : d.shrinking = true) :
    (Tree2d.Node bb r d data).shrinking = true := by
  simp only [Tree2d.shrinking, Bool.and_eq_true, decide_eq_true_eq]
  exact ⟨⟨⟨⟨⟨h1, h2⟩, h3⟩, h4⟩, h5⟩, h6⟩

theorem shrinking_partition {T : Type} (d : T) (bb : BoundingBox) (w h : Nat)
    (hw : w ≤ bb.width) (hh : h ≤ bb.height) :
    (Tree2d.partition d bb w h).shrinking = true := by
  rw [partition_eq]
  exact shrinking_node_of bb _ _ d (splitRight_width_le bb w h)
    (splitRight_height_le bb w h hh) (splitDown_width_le bb w h hw)
    (splitDown_height_le bb w h) rfl rfl

theorem shrinking_insert {T : Type} (t : Tree2d T) :
    ∀ (w h : Nat) (d : T), t.shrinking = true →
      ((Tree2d.insert_aux t w h d).1).shrinking = true := by
  induction t with
  | Leaf bb =>
      intro w h d _
      by_cases hc : bb.can_contain w h = true
      · have hc' := hc
        simp only [BoundingBox.can_contain, Bool.and_eq_true, decide_eq_true_eq] at hc'
        simp only [Tree2d.insert_aux, hc, if_true]
        exact shrinking_partition d bb w h hc'.1 hc'.2
      · simp only [Bool.not_eq_true] at hc
        simp [Tree2d.insert_aux, hc, Tree2d.shrinking]
  | Node bb right down data ihr ihd =>
      intro w h d hs
      have hs' := hs
      simp only [Tree2d.shrinking, Bool.and_eq_true, decide_eq_true_eq] at hs'
      obtain ⟨⟨⟨⟨⟨hrw, hrh⟩, hdw⟩, hdh⟩, hsr⟩, hsd⟩ := hs'
      by_cases hc : bb.can_contain w h = true
      · by_cases hord : (right.isUsed && !down.isUsed) = true
        · by_cases hq : (Tree2d.insert_aux down w h d).2 = true
          · simp only [Tree2d.insert_aux, hc, hord, hq, if_true]
            exact shrinking_node_of bb _ _ data hrw hrh
              (by rw [rootBB_insert]; exact hdw) (by rw [rootBB_insert]; exact hdh)
              hsr (ihd w h d hsd)
          · simp only [Bool.not_eq_true] at hq
            simp only [Tree2d.insert_aux, hc, hord, hq, if_true, Bool.false_eq_true,
              if_false]
            exact shrinking_node_of bb _ _ data
              (by rw [rootBB_insert]; exact hrw) (by rw [rootBB_insert]; exact hrh)
              (by rw [rootBB_insert]; exact hdw) (by rw [rootBB_insert]; exact hdh)
              (ihr w h d hsr) (ihd w h d hsd)
        · by_cases hp : (Tree2d.insert_aux right w h d).2 = true
          · simp only [Tree2d.insert_aux, hc, hord, hp, if_true, Bool.false_eq_true,
              if_false]
            exact shrinking_node_of bb _ _ data
              (by rw [rootBB_insert]; exact hrw) (by rw [rootBB_insert]; exact hrh)
              hdw hdh (ihr w h d hsr) hsd
          · simp only [Bool.not_eq_true] at hp
            simp only [Tree2d.insert_aux, hc, hord, hp, if_true, Bool.false_eq_true,
              if_false]
            exact shrinking_node_of bb _ _ data
              (by rw [rootBB_insert]; exact hrw) (by rw [rootBB_insert]; exact hrh)
              (by rw [rootBB_insert]; exact hdw) (by rw [rootBB_insert]; exact hdh)
              (ihr w h d hsr) (ihd w h d hsd)
      · simp only [Bool.not_eq_true] at hc
        simp only [Tree2d.insert_aux, hc, Bool.false_eq_true, if_false]
        exact hs

theorem sized_node_of (bb : BoundingBox) (r d : Tree2d (Nat × Nat)) (wh : Nat × Nat)
    (h1 : wh.1 ≤ bb.width) (h2 : wh.2 ≤ bb.height)
    (h3 : r.rootBB = splitRight bb wh.1 wh.2) (h4 : d.rootBB = splitDown bb wh.1 wh.2)
    (h5 : r.sized = true) (h6 : d.sized = true) :
    (Tree2d.Node bb r d wh).sized = true := by
  simp only [Tree2d.sized, Bool.and_eq_true, decide_eq_true_eq]
  exact ⟨⟨⟨⟨⟨h1, h2⟩, h3⟩, h4⟩, h5⟩, h6⟩

theorem sized_partition (bb : BoundingBox) (w h : Nat)
    (hw : w ≤ bb.width) (hh : h ≤ bb.height) :
    (Tree2d.partition ((w, h) : Nat × Nat) bb w h).sized = true := by
  rw [partition_eq]
  exact sized_node_of bb _ _ (w, h) hw hh rfl rfl rfl rfl

theorem sized_insert (t : Tree2d (Nat × Nat)) :
    ∀ (w h : Nat), t.sized = true →
      ((Tree2d.insert_aux t w h (w, h)).1).sized = true := by
  induction t with
  | Leaf bb =>
      intro w h _
      by_cases hc : bb.can_contain w h = true
      · have hc' := hc
        simp only [BoundingBox.can_contain, Bool.and_eq_true, decide_eq_true_eq] at hc'
        simp only [Tree2d.insert_aux, hc, if_true]
        exact sized_partition bb w h hc'.1 hc'.2
      · simp only [Bool.not_eq_true] at hc
        simp [Tree2d.insert_aux, hc, Tree2d.sized]
  | Node bb right down data ihr ihd =>
      intro w h hs
      have hs' := hs
      simp only [Tree2d.sized, Bool.and_eq_true, decide_eq_true_eq] at hs'
      obtain ⟨⟨⟨⟨⟨hw, hh⟩, hr⟩, hd⟩, hsr⟩, hsd⟩ := hs'
      by_cases hc : bb.can_contain w h = true
      · by_cases hord : (right.isUsed && !down.isUsed) = true
        · by_cases hq : (Tree2d.insert_aux down w h ((w, h) : Nat × Nat)).2 = true
          · simp only [Tree2d.insert_aux, hc, hord, hq, if_true]
            exact sized_node_of bb _ _ data hw hh hr
              (by rw [rootBB_insert]; exact hd) hsr (ihd w h hsd)
          · simp only [Bool.not_eq_true] at hq
            simp only [Tree2d.insert_aux, hc, hord, hq, if_true, Bool.false_eq_true,
              if_false]
            exact sized_node_of bb _ _ data hw hh
              (by rw [rootBB_insert]; exact hr) (by rw [rootBB_insert]; exact hd)
              (ihr w h hsr) (ihd w h hsd)
        · by_cases hp : (Tree2d.insert_aux right w h ((w, h) : Nat × Nat)).2 = true
          · simp only [Tree2d.insert_aux, hc, hord, hp, if_true, Bool.false_eq_true,
              if_false]
            exact sized_node_of bb _ _ data hw hh
              (by rw [rootBB_insert]; exact hr) hd (ihr w h hsr) hsd
          · simp only [Bool.not_eq_true] at hp
            simp only [Tree2d.insert_aux, hc, hord, hp, if_true, Bool.false_eq_true,
              if_false]
            exact sized_node_of bb _ _ data hw hh
              (by rw [rootBB_insert]; exact hr) (by rw [rootBB_insert]; exact hd)
              (ihr w h hsr) (ihd w h hsd)
      · simp only [Bool.not_eq_true] at hc
        simp only [Tree2d.insert_aux, hc, Bool.false_eq_true, if_false]
        exact hs

theorem sized_packList_aux :
    ∀ (items : List (Nat × Nat)) (t : Tree2d (Nat × Nat)), t.sized = true →
      (Tree2d.packList t (items.map fun s => (s.1, s.2, s))).1.sized = true := by
  intro items
  induction items with
  | nil => intro t ht; simpa [Tree2d.packList] using ht
  | cons s rest ih =>
      obtain ⟨a, b⟩ := s
      intro t ht
      simp only [List.map_cons, Tree2d.packList]
      exact ih _ (sized_insert t a b ht)

theorem sized_packSized (W H : Nat) (items : List (Nat × Nat)) :
    (Tree2d.packSized W H items).1.sized = true :=
  sized_packList_aux items _ rfl

end Corral

namespace Corral


theorem payloads_leaf {T : Type} (bb : BoundingBox) :
    payloads (Tree2d.Leaf bb : Tree2d T) = 0 := rfl

theorem payloads_node {T : Type} (bb : BoundingBox) (r d : Tree2d T) (x : T) :
    payloads (Tree2d.Node bb r d x) = x ::ₘ (payloads r + payloads d) := by
  simp [payloads, flatten_eq, preorderPlacements, Multiset.cons_coe, Multiset.coe_add]

theorem payloads_insert {T : Type} (t : Tree2d T) :
    ∀ (w h : Nat) (d : T), (Tree2d.insert_aux t w h d).2 = true →
      payloads (Tree2d.insert_aux t w h d).1 = d ::ₘ payloads t := by
  induction t with
  | Leaf bb =>
      intro w h d hsucc
      by_cases hc : bb.can_contain w h = true
      · simp [Tree2d.insert_aux, hc, partition_eq, payloads_node, payloads_leaf]
      · simp only [Bool.not_eq_true] at hc
        simp [Tree2d.insert_aux, hc] at hsucc
  | Node bb right down data ihr ihd =>
      intro w h d hsucc
      by_cases hc : bb.can_contain w h = true
      · by_cases hord : (right.isUsed && !down.isUsed) = true
        · by_cases hq : (Tree2d.insert_aux down w h d).2 = true
          · simp only [Tree2d.insert_aux, hc, hord, hq, if_true]
            rw [payloads_node, payloads_node, ihd w h d hq]
            simp [Multiset.add_cons, Multiset.cons_swap]
          · simp only [Bool.not_eq_true] at hq
            simp only [Tree2d.insert_aux, hc, hord, hq, if_true, Bool.false_eq_true,
              if_false] at hsucc ⊢
            rw [payloads_node, payloads_node, ihr w h d hsucc,
              insert_fail_eq down w h d hq]
            simp [Multiset.cons_add, Multiset.cons_swap]
        · by_cases hp : (Tree2d.insert_aux right w h d).2 = true
          · simp only [Tree2d.insert_aux, hc, hord, hp, if_true, Bool.false_eq_true,
              if_false]
            rw [payloads_node, payloads_node, ihr w h d hp]
            simp [Multiset.cons_add, Multiset.cons_swap]
          · simp only [Bool.not_eq_true] at hp
            simp only [Tree2d.insert_aux, hc, hord, hp, if_true, Bool.false_eq_true,
              if_false] at hsucc ⊢
            rw [payloads_node, payloads_node, ihd w h d hsucc,
              insert_fail_eq right w h d hp]
            simp [Multiset.add_cons, Multiset.cons_swap]
      · simp only [Bool.not_eq_true] at hc
        simp [Tree2d.insert_aux, hc] at hsucc

theorem payloads_packList {T : Type} :
    ∀ (items : List (Nat × Nat × T)) (t : Tree2d T),
      (Tree2d.packList t items).2 = true →
      payloads (Tree2d.packList t items).1 =
        (↑(items.map fun i => i.2.2) : Multiset T) + payloads t := by
  intro items
  induction items with
  | nil => intro t _; simp [Tree2d.packList]
  | cons i rest ih =>
      obtain ⟨w, h, d⟩ := i
      intro t hsucc
      simp only [Tree2d.packList, Bool.and_eq_true] at hsucc
      obtain ⟨h1, h2⟩ := hsucc
      simp only [Tree2d.packList, List.map_cons]
      rw [ih _ h2, payloads_insert t w h d h1, ← Multiset.cons_coe, Multiset.cons_add,
        Multiset.add_cons]

end Corral

namespace Corral

theorem foot_sub_root (t : Tree2d (Nat × Nat)) :
    t.sized = true → ∀ e ∈ preorderPlacements t, ∀ q : Nat × Nat,
      memBB (footOf e) q → memBB t.rootBB q := by
  induction t with
  | Leaf bb => intro _ e he; simp [preorderPlacements] at he
  | Node bb right down wh ihr ihd =>
      intro hs e he q hq
      simp only [Tree2d.sized, Bool.and_eq_true, decide_eq_true_eq] at hs
      obtain ⟨⟨⟨⟨⟨hw, hh⟩, hr⟩, hd⟩, hsr⟩, hsd⟩ := hs
      simp only [preorderPlacements, List.mem_cons, List.mem_append] at he
      simp only [Tree2d.rootBB]
      rcases he with rfl | he | he
      · exact mem_footprint_le bb wh.1 wh.2 hw hh q hq
      · have h1 := ihr hsr e he q hq
        rw [hr] at h1
        exact mem_splitRight_le bb wh.1 wh.2 hw hh q h1
      · have h1 := ihd hsd e he q hq
        rw [hd] at h1
        exact mem_splitDown_le bb wh.1 wh.2 hw hh q h1

theorem preorder_disjoint (t : Tree2d (Nat × Nat)) :
    t.sized = true →
    List.Pairwise (fun a b => disjointBB (footOf a) (footOf b))
      (preorderPlacements t) := by
  induction t with
  | Leaf bb => intro _; simp [preorderPlacements]
  | Node bb right down wh ihr ihd =>
      intro hs
      have hs' := hs
      simp only [Tree2d.sized, Bool.and_eq_true, decide_eq_true_eq] at hs'
      obtain ⟨⟨⟨⟨⟨hw, hh⟩, hr⟩, hd⟩, hsr⟩, hsd⟩ := hs'
      simp only [preorderPlacements]
      refine List.Pairwise.cons ?_ (List.pairwise_append.mpr ⟨ihr hsr, ihd hsd, ?_⟩)
      · intro b hb q h1 h2
        rcases List.mem_append.mp hb with hb | hb
        · have h3 := foot_sub_root right hsr b hb q h2
          rw [hr] at h3
          exact disj_foot_right bb wh.1 wh.2 q h1 h3
        · have h3 := foot_sub_root down hsd b hb q h2
          rw [hd] at h3
          exact disj_foot_down bb wh.1 wh.2 q h1 h3
      · intro a ha b hb q h1 h2
        have h3 := foot_sub_root right hsr a ha q h1
        rw [hr] at h3
        have h4 := foot_sub_root down hsd b hb q h2
        rw [hd] at h4
        exact disj_right_down bb wh.1 wh.2 q h3 h4

theorem sized_allUsedOk (t : Tree2d (Nat × Nat)) :
    t.sized = true → allUsedOk t := by
  induction t with
  | Leaf bb => intro _; trivial
  | Node bb right down wh ihr ihd =>
      intro hs
      simp only [Tree2d.sized, Bool.and_eq_true, decide_eq_true_eq] at hs
      obtain ⟨⟨⟨⟨⟨hw, hh⟩, hr⟩, hd⟩, hsr⟩, hsd⟩ := hs
      refine ⟨?_, ihr hsr, ihd hsd⟩
      rw [hr, hd]
      exact ⟨fun q => cover_split bb wh.1 wh.2 hw hh q,
        disj_foot_right bb wh.1 wh.2, disj_foot_down bb wh.1 wh.2,
        disj_right_down bb wh.1 wh.2⟩

theorem insert_eq_free_first {T : Type} :
    ∀ (t : Tree2d T) (w h : Nat) (d : T),
      Tree2d.insert_aux t w h d = insertFreeFirst t w h d := by
  intro t
  induction t with
  | Leaf bb => intro w h d; rfl
  | Node bb right down data ihr ihd =>
      intro w h d
      by_cases hc : bb.can_contain w h = true
      · cases hru : right.isUsed <;> cases hdu : down.isUsed <;>
          simp [Tree2d.insert_aux, insertFreeFirst, hc, hru, hdu, ihr, ihd]
      · simp only [Bool.not_eq_true] at hc
        simp [Tree2d.insert_aux, insertFreeFirst, hc]

theorem partitionChecked_eq {T : Type} (d : T) (bb : BoundingBox) (w h : Nat)
    (hw : w ≤ bb.width) (hh : h ≤ bb.height) :
    partitionChecked d bb w h = some (Tree2d.partition d bb w h) := by
  simp only [partitionChecked, checkedSub, hw, hh, if_true]
  by_cases hcond : bb.height - h > bb.width - w <;>
    simp [Tree2d.partition, hcond]

theorem insertChecked_eq {T : Type} :
    ∀ (t : Tree2d T) (w h : Nat) (d : T),
      insertChecked t w h d = some (Tree2d.insert_aux t w h d) := by
  intro t
  induction t with
  | Leaf bb =>
      intro w h d
      by_cases hc : bb.can_contain w h = true
      · have hc' := hc
        simp only [BoundingBox.can_contain, Bool.and_eq_true, decide_eq_true_eq] at hc'
        simp [insertChecked, Tree2d.insert_aux, hc,
          partitionChecked_eq d bb w h hc'.1 hc'.2]
      · simp only [Bool.not_eq_true] at hc
        simp [insertChecked, Tree2d.insert_aux, hc]
  | Node bb right down data ihr ihd =>
      intro w h d
      by_cases hc : bb.can_contain w h = true
      · by_cases hord : (right.isUsed && !down.isUsed) = true
        · by_cases hq : (Tree2d.insert_aux down w h d).2 = true <;>
            simp [insertChecked, Tree2d.insert_aux, hc, hord, ihr, ihd, hq]
        · by_cases hp : (Tree2d.insert_aux right w h d).2 = true <;>
            simp [insertChecked, Tree2d.insert_aux, hc, hord, ihr, ihd, hp]
      · simp only [Bool.not_eq_true] at hc
        simp [insertChecked, Tree2d.insert_aux, hc]

end Corral

namespace Corral

/-- C1 counterexample: packing a 3 by 3 item and then a 1 by 1 item into a
fresh 4 by 4 canvas succeeds, yet the two placement rectangles returned by
`flatten` — the first item's full pre-split region `(0,0,4,4)` and the
second item's region `(3,0,1,4)` — overlap (at the point `(3,0)`). -/
theorem flatten_rect_overlap_cex :
    (Tree2d.packList (Tree2d.new 4 4) [(3, 3, (1 : Nat)), (1, 1, 2)]).2 = true ∧
    Tree2d.flatten (Tree2d.packList (Tree2d.new 4 4) [(3, 3, (1 : Nat)), (1, 1, 2)]).1 =
      [(1, ⟨0, 0, 4, 4⟩), (2, ⟨3, 0, 1, 4⟩)] ∧
    ¬ disjointBB ⟨0, 0, 4, 4⟩ ⟨3, 0, 1, 4⟩ :=
  ⟨by decide, by decide, fun hd => hd (3, 0) (by decide) (by decide)⟩

/-- C1 (amended): for every successful pack, the item FOOTPRINTS of any two
distinct placements — each payload's recorded width and height placed at
the top-left corner of its placement rectangle — do not overlap. -/
theorem pack_footprints_disjoint (W H : Nat) (items : List (Nat × Nat))
    (hsucc : (Tree2d.packSized W H items).2 = true) :
    List.Pairwise (fun a b => disjointBB (footOf a) (footOf b))
      (Tree2d.flatten (Tree2d.packSized W H items).1) := by
  rw [flatten_eq]
  exact preorder_disjoint _ (sized_packSized W H items)

theorem pack_footprints_disjoint_witness :
    (Tree2d.packSized 4 4 [(3, 3), (1, 1)]).2 = true ∧
    List.Pairwise (fun a b => disjointBB (footOf a) (footOf b))
      (Tree2d.flatten (Tree2d.packSized 4 4 [(3, 3), (1, 1)]).1) :=
  ⟨by decide, pack_footprints_disjoint 4 4 [(3, 3), (1, 1)] (by decide)⟩

/-- C2 counterexample: a reachable tree whose `right` child is Used and
whose `down` child is Free, where the code's insertion differs from the
claimed policy of trying the Used child first — the code places the new
item in the Free `down` child even though the Used `right` child has room. -/
theorem insert_used_first_cex :
    (Tree2d.packList (Tree2d.new 4 4) [(2, 2, (1 : Nat)), (2, 2, 2)]).1 =
      .Node ⟨0, 0, 4, 4⟩
        (.Node ⟨2, 0, 2, 4⟩ (.Leaf ⟨4, 0, 0, 2⟩) (.Leaf ⟨2, 2, 2, 2⟩) 2)
        (.Leaf ⟨0, 2, 2, 2⟩) 1 ∧
    Tree2d.insert_aux
        (Tree2d.packList (Tree2d.new 4 4) [(2, 2, (1 : Nat)), (2, 2, 2)]).1 2 2 3 =
      (.Node ⟨0, 0, 4, 4⟩
        (.Node ⟨2, 0, 2, 4⟩ (.Leaf ⟨4, 0, 0, 2⟩) (.Leaf ⟨2, 2, 2, 2⟩) 2)
        (.Node ⟨0, 2, 2, 2⟩ (.Leaf ⟨2, 2, 0, 2⟩) (.Leaf ⟨0, 4, 2, 0⟩) 3) 1, true) ∧
    Tree2d.insert_aux
        (Tree2d.packList (Tree2d.new 4 4) [(2, 2, (1 : Nat)), (2, 2, 2)]).1 2 2 3 ≠
      insertUsedFirst
        (Tree2d.packList (Tree2d.new 4 4) [(2, 2, (1 : Nat)), (2, 2, 2)]).1 2 2 3 := by
  decide

/-- C2 (amended): at a Used node whose `bb` can contain the item, if
exactly one child is Used the code tries the FREE child first and the Used
child second; if both children are Free or both are Used it tries `right`
before `down`. Stated as: `insert_aux` coincides with `insertFreeFirst`,
the function written directly from that amended policy. -/
theorem insert_order_free_child_first {T : Type} :
    ∀ (t : Tree2d T) (w h : Nat) (d : T),
      Tree2d.insert_aux t w h d = insertFreeFirst t w h d :=
  fun t => insert_eq_free_first t

/-- C3: on any tree satisfying the module's structural invariant
(`shrinking`, which holds for every tree built by `new` and `insert`),
`insert` succeeds exactly when some Free leaf can contain the item, a
failed insert leaves the tree completely unchanged, and a successful
insert changes it. -/
theorem insert_true_iff_free_fit {T : Type} (t : Tree2d T) (w h : Nat) (d : T)
    (hs : t.shrinking = true) :
    ((Tree2d.insert_aux t w h d).2 = true ↔ t.hasFreeFit w h = true) ∧
    ((Tree2d.insert_aux t w h d).2 = false → (Tree2d.insert_aux t w h d).1 = t) ∧
    ((Tree2d.insert_aux t w h d).2 = true → (Tree2d.insert_aux t w h d).1 ≠ t) := by
  refine ⟨by rw [insert_flag_eq t w h d hs], insert_fail_eq t w h d, ?_⟩
  intro hsucc heq
  have h1 := usedCount_insert t w h d hsucc
  rw [heq] at h1
  omega

theorem insert_true_iff_free_fit_witness :
    (Tree2d.new 4 4 : Tree2d Nat).shrinking = true ∧
    ((((Tree2d.insert_aux (Tree2d.new 4 4 : Tree2d Nat) 2 2 0).2 = true) ↔
        (Tree2d.new 4 4 : Tree2d Nat).hasFreeFit 2 2 = true) ∧
      ((Tree2d.insert_aux (Tree2d.new 4 4 : Tree2d Nat) 2 2 0).2 = false →
        (Tree2d.insert_aux (Tree2d.new 4 4 : Tree2d Nat) 2 2 0).1 = Tree2d.new 4 4) ∧
      ((Tree2d.insert_aux (Tree2d.new 4 4 : Tree2d Nat) 2 2 0).2 = true →
        (Tree2d.insert_aux (Tree2d.new 4 4 : Tree2d Nat) 2 2 0).1 ≠ Tree2d.new 4 4)) :=
  ⟨by decide, insert_true_iff_free_fit (Tree2d.new 4 4) 2 2 0 (by decide)⟩

/-- C4 counterexample: constructing a tree with a zero-area canvas does not
fail — `new 0 0` succeeds and returns an ordinary Free leaf; there is no
validation and no `InvalidCanvas` error anywhere in the tree module. -/
theorem new_zero_canvas_cex :
    (Tree2d.new 0 0 : Tree2d Nat) = .Leaf ⟨0, 0, 0, 0⟩ := rfl

/-- C4 (amended): `new` performs no validation and always succeeds,
returning a single Free leaf at `(0, 0, width, height)` even for a
zero-area canvas; such a canvas then rejects (returns `false` for) every
item with positive width and height. -/
theorem new_unvalidated {T : Type} (width height : Nat) (hz : width = 0 ∨ height = 0)
    (w h : Nat) (hw : 0 < w) (hh : 0 < h) (d : T) :
    (Tree2d.new width height : Tree2d T) = .Leaf ⟨0, 0, width, height⟩ ∧
    (Tree2d.insert_aux (Tree2d.new width height) w h d).2 = false := by
  refine ⟨rfl, ?_⟩
  have hcc : (⟨0, 0, width, height⟩ : BoundingBox).can_contain w h = false := by
    simp only [BoundingBox.can_contain, Bool.and_eq_false_iff, decide_eq_false_iff_not]
    rcases hz with rfl | rfl
    · exact Or.inl (by omega)
    · exact Or.inr (by omega)
  simp [Tree2d.new, Tree2d.insert_aux, hcc]

theorem new_unvalidated_witness :
    ((0 : Nat) = 0 ∨ (5 : Nat) = 0) ∧ (0 : Nat) < 1 ∧
    ((Tree2d.new 0 5 : Tree2d Nat) = .Leaf ⟨0, 0, 0, 5⟩ ∧
      (Tree2d.insert_aux (Tree2d.new 0 5 : Tree2d Nat) 1 1 7).2 = false) :=
  ⟨Or.inl rfl, by decide, new_unvalidated 0 5 (Or.inl rfl) 1 1 (by decide) (by decide) 7⟩

/-- C5: for a Free leaf region `bb` that can contain a `w` by `h` item,
`partition` produces exactly the child regions the claim lists, branching
on `bb.height - h > bb.width - w`. -/
theorem partition_children_formula {T : Type} (d : T) (bb : BoundingBox) (w h : Nat)
    (hc : bb.can_contain w h = true) :
    Tree2d.partition d bb w h =
      if bb.height - h > bb.width - w then
        .Node bb (.Leaf ⟨bb.x + w, bb.y, bb.width - w, h⟩)
          (.Leaf ⟨bb.x, bb.y + h, bb.width, bb.height - h⟩) d
      else
        .Node bb (.Leaf ⟨bb.x + w, bb.y, bb.width - w, bb.height⟩)
          (.Leaf ⟨bb.x, bb.y + h, w, bb.height - h⟩) d := by
  by_cases hcond : bb.height - h > bb.width - w <;> simp [Tree2d.partition, hcond]

theorem partition_children_formula_witness :
    (⟨0, 0, 4, 6⟩ : BoundingBox).can_contain 2 2 = true ∧
    Tree2d.partition (0 : Nat) ⟨0, 0, 4, 6⟩ 2 2 =
      (if (⟨0, 0, 4, 6⟩ : BoundingBox).height - 2 > (⟨0, 0, 4, 6⟩ : BoundingBox).width - 2 then
        .Node ⟨0, 0, 4, 6⟩ (.Leaf ⟨0 + 2, 0, 4 - 2, 2⟩) (.Leaf ⟨0, 0 + 2, 4, 6 - 2⟩) (0 : Nat)
      else
        .Node ⟨0, 0, 4, 6⟩ (.Leaf ⟨0 + 2, 0, 4 - 2, 6⟩) (.Leaf ⟨0, 0 + 2, 2, 6 - 2⟩) 0) :=
  ⟨by decide, partition_children_formula 0 ⟨0, 0, 4, 6⟩ 2 2 (by decide)⟩

/-- C6: after any sequence of inserts (payloads instrumented to record
each item's size), every Used node's item footprint, `right` child region
and `down` child region are pairwise disjoint and their union is exactly
the node's `bb` — no overlap, no gaps. -/
theorem used_nodes_partition_exactly (W H : Nat) (items : List (Nat × Nat)) :
    allUsedOk (Tree2d.packSized W H items).1 :=
  sized_allUsedOk _ (sized_packSized W H items)

/-- C7: a fully successful pack of `n` items yields exactly `n` placements,
whose payload multiset is exactly the multiset of inserted payloads. -/
theorem pack_conserves_payloads {T : Type} (W H : Nat) (items : List (Nat × Nat × T))
    (hsucc : (Tree2d.packList (Tree2d.new W H) items).2 = true) :
    (Tree2d.flatten (Tree2d.packList (Tree2d.new W H) items).1).length = items.length ∧
    (((Tree2d.flatten (Tree2d.packList (Tree2d.new W H) items).1).map Prod.fst :
        List T) : Multiset T) =
      ((items.map fun i => i.2.2 : List T) : Multiset T) := by
  have h1 := payloads_packList items (Tree2d.new W H) hsucc
  have h2 : payloads (Tree2d.new W H : Tree2d T) = 0 := rfl
  rw [h2, add_zero] at h1
  refine ⟨?_, h1⟩
  have h3 := congrArg Multiset.card h1
  simp only [payloads, Multiset.coe_card] at h3
  simpa using h3

theorem pack_conserves_payloads_witness :
    (Tree2d.packList (Tree2d.new 4 4) [(3, 3, (10 : Nat)), (1, 1, 20)]).2 = true ∧
    ((Tree2d.flatten (Tree2d.packList (Tree2d.new 4 4)
        [(3, 3, (10 : Nat)), (1, 1, 20)]).1).length =
      [(3, 3, (10 : Nat)), (1, 1, 20)].length ∧
    (((Tree2d.flatten (Tree2d.packList (Tree2d.new 4 4)
        [(3, 3, (10 : Nat)), (1, 1, 20)]).1).map Prod.fst : List Nat) : Multiset Nat) =
      (([(3, 3, (10 : Nat)), (1, 1, 20)].map fun i => i.2.2 : List Nat) : Multiset Nat)) :=
  ⟨by decide, pack_conserves_payloads 4 4 [(3, 3, 10), (1, 1, 20)] (by decide)⟩

/-- C8: inserting a 3 by 3 item (payload 1, the claim's "a") then a 1 by 1
item (payload 2, the claim's "b") into a fresh 4 by 4 tree: the root split
takes the "otherwise" branch giving right child `(3,0,1,4)` and down child
`(0,3,3,1)`; "a"'s 3 by 3 footprint at its region's top-left corner is
`(0,0,3,3)`; and "b" lands in the right child, its placement rectangle in
`flatten` being `(3,0,1,4)`. -/
theorem two_item_scenario :
    Tree2d.insert_aux (Tree2d.new 4 4) 3 3 (1 : Nat) =
      (.Node ⟨0, 0, 4, 4⟩ (.Leaf ⟨3, 0, 1, 4⟩) (.Leaf ⟨0, 3, 3, 1⟩) 1, true) ∧
    footprint ⟨0, 0, 4, 4⟩ 3 3 = ⟨0, 0, 3, 3⟩ ∧
    Tree2d.insert_aux (Tree2d.insert_aux (Tree2d.new 4 4) 3 3 (1 : Nat)).1 1 1 2 =
      (.Node ⟨0, 0, 4, 4⟩ (.Node ⟨3, 0, 1, 4⟩ (.Leaf ⟨4, 0, 0, 1⟩) (.Leaf ⟨3, 1, 1, 3⟩) 2)
        (.Leaf ⟨0, 3, 3, 1⟩) 1, true) ∧
    Tree2d.flatten
        (Tree2d.insert_aux (Tree2d.insert_aux (Tree2d.new 4 4) 3 3 (1 : Nat)).1 1 1 2).1 =
      [(1, ⟨0, 0, 4, 4⟩), (2, ⟨3, 0, 1, 4⟩)] := by
  decide

/-- C9: `flatten` is a pure function of the current tree (so repeated calls
trivially return identical sequences) and it equals the preorder placement
list — every Used node's `(payload, bb)` pair, node first, then the whole
`right` subtree, then the whole `down` subtree. -/
theorem flatten_is_pure_preorder {T : Type} (t : Tree2d T) :
    Tree2d.flatten t = preorderPlacements t :=
  flatten_eq t

/-- C10: running `insert_aux` with both `u32` subtractions inside
`partition` checked for underflow always returns `some` — the checked run
agrees with the unchecked one on every tree, so the subtractions
`bb.width - width` and `bb.height - height` never underflow and insertion
never panics there. -/
theorem insert_never_underflows {T : Type} (t : Tree2d T) (w h : Nat) (d : T) :
    insertChecked t w h d = some (Tree2d.insert_aux t w h d) :=
  insertChecked_eq t w h d

end Corral
